import Mathlib

/-!
Shallow embedding of the token extraction and resolution pipeline of
`src/index.js` (a Figma-to-SCSS asset synchronizer).

Modelling conventions:
* JS numbers are modelled as exact rationals (`ℚ`).  Because the library's
  `Rat.add` / `Rat.mul` are `@[irreducible]`, the embedding uses the
  kernel-computable wrappers `ratAdd` / `ratMul` / `jsDiv`, each proved equal
  to the mathematical operation.
* JS strings are modelled as `String`, manipulated through `String.data`
  (lists of characters) so that every operation evaluates in the kernel.
  `toLowerCase`, `trim` and the regular expressions of the source are
  modelled for the ASCII range they are used on (plus NBSP/BOM whitespace).
* `Map` objects are association lists with `Map.set` / `Map.get` semantics
  (`mapSet` replaces in place, otherwise appends; `mapGet` finds the unique
  binding).  `Set` objects are duplicate-free lists in insertion order.
* Absent / `undefined` fields are `Option`s.
-/

namespace FigmaSpec

/-! ### JS number primitives -/

/-- Kernel-computable addition on `ℚ` (equals `a + b`, see `ratAdd_eq`). -/
def ratAdd (a b : ℚ) : ℚ := mkRat (a.num * b.den + b.num * a.den) (a.den * b.den)

/-- Kernel-computable multiplication on `ℚ` (equals `a * b`, see `ratMul_eq`). -/
def ratMul (a b : ℚ) : ℚ := mkRat (a.num * b.num) (a.den * b.den)

/-- Kernel-computable division on `ℚ`: JS `a / b` for `b ≠ 0`. -/
def jsDiv (a b : ℚ) : ℚ := Rat.divInt (a.num * b.den) (a.den * b.num)

theorem ratAdd_eq (a b : ℚ) : ratAdd a b = a + b := (Rat.add_def' a b).symm

theorem ratMul_eq (a b : ℚ) : ratMul a b = a * b := by
  rw [Rat.mul_def, Rat.normalize_eq_mkRat]; rfl

/-- Kernel-computable floor of a rational. -/
def ratFloorZ (q : ℚ) : ℤ := q.num / q.den

theorem ratFloorZ_eq (q : ℚ) : ratFloorZ q = ⌊q⌋ := Rat.floor_def.symm

/-- JS `Math.round`: round half toward positive infinity. -/
def jsRound (q : ℚ) : ℤ := ratFloorZ (ratAdd q (mkRat 1 2))

theorem jsRound_eq_floor (q : ℚ) : jsRound q = ⌊q + 1 / 2⌋ := by
  unfold jsRound
  rw [ratAdd_eq, ratFloorZ_eq]
  norm_num

/-- JS `Math.min` on numbers. -/
def jsMin (a b : ℚ) : ℚ := if a ≤ b then a else b

/-- JS `Math.max` on numbers. -/
def jsMax (a b : ℚ) : ℚ := if a ≤ b then b else a

theorem jsMin_eq (a b : ℚ) : jsMin a b = min a b := by
  unfold jsMin; rw [min_def]

theorem jsMax_eq (a b : ℚ) : jsMax a b = max a b := by
  unfold jsMax; rw [max_def]

/-- `clamp01` of the source: clamps to `[0,1]`, non-numbers count as `0`. -/
def clamp01 (n : Option ℚ) : ℚ :=
  jsMax 0 (jsMin 1 (match n with | some v => v | none => 0))

/-! ### JS string primitives -/

/-- `toLowerCase` on a character (ASCII range, which is all the source uses). -/
def jsLowerChar (c : Char) : Char :=
  if 65 ≤ c.toNat && c.toNat ≤ 90 then Char.ofNat (c.toNat + 32) else c

/-- `toLowerCase` on a string. -/
def jsLower (s : String) : String := String.mk (s.data.map jsLowerChar)

/-- The whitespace class of JS `trim` / `\s` (ASCII portion plus NBSP/BOM). -/
def isJsSpace (c : Char) : Bool :=
  c == ' ' || c == '\t' || c == '\n' || c == '\r' ||
  c.toNat == 11 || c.toNat == 12 || c.toNat == 160 || c.toNat == 65279

def jsTrimL (l : List Char) : List Char :=
  ((l.dropWhile isJsSpace).reverse.dropWhile isJsSpace).reverse

/-- JS `String.prototype.trim`. -/
def jsTrim (s : String) : String := String.mk (jsTrimL s.data)

def isPrefixOfL : List Char → List Char → Bool
  | [], _ => true
  | _ :: _, [] => false
  | a :: as, b :: bs => a == b && isPrefixOfL as bs

/-- Unanchored substring test (`regex.test` for a literal pattern). -/
def containsSub (needle : List Char) : List Char → Bool
  | [] => needle.isEmpty
  | c :: t => isPrefixOfL needle (c :: t) || containsSub needle t

def strContainsSub (s pat : String) : Bool := containsSub pat.data s.data

/-- `.test` for an alternation of literal substrings. -/
def containsAny (s : String) (pats : List String) : Bool :=
  pats.any (fun p => strContainsSub s p)

def isWordChar (c : Char) : Bool := c.isAlpha || c.isDigit || c == '_'

/-- One position of the `\blh\b` test: `lh` here with word boundaries. -/
def lhBoundaryAt (prev : Option Char) : List Char → Bool
  | 'l' :: 'h' :: rest =>
    (match prev with | none => true | some p => !(isWordChar p)) &&
    (match rest with | [] => true | c :: _ => !(isWordChar c))
  | _ => false

/-- `\blh\b` substring test, scanning every position. -/
def hasWordLhAux (prev : Option Char) : List Char → Bool
  | [] => false
  | c :: rest => lhBoundaryAt prev (c :: rest) || hasWordLhAux (some c) rest

/-- `/\d+px/` unanchored test: some digit immediately followed by `px`. -/
def hasDigitPx : List Char → Bool
  | [] => false
  | c :: rest => (c.isDigit && isPrefixOfL ['p', 'x'] rest) || hasDigitPx rest

/-! ### The shadow-value regex

`SHADOW_VALUE_RE = /(rgba?|#)[^;]*\d+px[^;]*\d+px/`.  For a `.test` call the
`rgba` alternative is redundant (its `a` is matched by the following
`[^;]*`), and taking the leftmost digit-before-`px` occurrence inside a
`;`-free stretch is complete, so the scan below decides exactly the same
match-existence property as the backtracking regex. -/

/-- Scan for `[^;]*\d+px`, returning the remainder after `px`. -/
def scanDigitPxSemi : List Char → Option (List Char)
  | [] => none
  | c :: rest =>
    if c == ';' then none
    else if c.isDigit && isPrefixOfL ['p', 'x'] rest then some (rest.drop 2)
    else scanDigitPxSemi rest

def shadowTailMatch (cs : List Char) : Bool :=
  match scanDigitPxSemi cs with
  | none => false
  | some r1 => (scanDigitPxSemi r1).isSome

def shadowScan : List Char → Bool
  | [] => false
  | c :: rest =>
    (c == '#' && shadowTailMatch rest) ||
    (isPrefixOfL ['r', 'g', 'b'] (c :: rest) && shadowTailMatch (rest.drop 2)) ||
    shadowScan rest

/-- `SHADOW_VALUE_RE.test`. -/
def shadowValueTest (s : String) : Bool := shadowScan s.data

/-! ### Name normalizer / slug generator -/

def GENERIC_NODE_NAMES : List String :=
  ["rectangle", "rect", "frame", "auto layout", "group", "component",
   "component set", "instance", "vector", "ellipse", "line", "text"]

/-- Replace every whitespace run by a single space (`replace(/\s+/g, " ")`). -/
def collapseSpaceRuns (prevSpace : Bool) : List Char → List Char
  | [] => []
  | c :: rest =>
    if isJsSpace c then
      if prevSpace then collapseSpaceRuns true rest
      else ' ' :: collapseSpaceRuns true rest
    else c :: collapseSpaceRuns false rest

/-- `normalizePathNames`: trim each entry, drop empties, collapse whitespace. -/
def normalizePathNames (names : List String) : List String :=
  ((names.map jsTrim).filter (fun s => s ≠ "")).map
    (fun s => String.mk (collapseSpaceRuns false s.data))

def isAlnum (c : Char) : Bool := c.isAlpha || c.isDigit

/-- Split into maximal runs of characters satisfying `p` (dropping the rest). -/
def splitRunsBy (p : Char → Bool) : List Char → List (List Char)
  | [] => []
  | c :: rest =>
    let rs := splitRunsBy p rest
    if p c then
      match rest with
      | r :: _ =>
        if p r then
          match rs with
          | run :: more => (c :: run) :: more
          | [] => [[c]]
        else [c] :: rs
      | [] => [[c]]
    else rs

/-- Split a run at every letter/digit boundary (the effect of the source's
`([a-zA-Z])(\d)` / `(\d)([a-zA-Z])` space-insertion passes). -/
def splitLetterDigitRun : List Char → List (List Char)
  | [] => []
  | [c] => [[c]]
  | a :: b :: rest =>
    let rs := splitLetterDigitRun (b :: rest)
    if (a.isAlpha && b.isDigit) || (a.isDigit && b.isAlpha) then [a] :: rs
    else
      match rs with
      | run :: more => (a :: run) :: more
      | [] => [[a]]

/-- `splitSegmentIntoTokens`.  The source first replaces brackets, dots,
underscores and unicode hyphens by spaces and inserts a space between each
letter/digit pair, then splits on `[^a-zA-Z0-9]+` and drops empties.  All
replaced characters are non-alphanumeric, so the composite is: take the
maximal alphanumeric runs and split them at letter/digit boundaries. -/
def splitSegmentIntoTokens (segment : String) : List String :=
  let trimmed := jsTrimL segment.data
  if trimmed.isEmpty then []
  else
    let tokens :=
      ((splitRunsBy isAlnum trimmed).flatMap splitLetterDigitRun).map String.mk
    if tokens.isEmpty then [String.mk trimmed] else tokens

def isSlugKeepChar (c : Char) : Bool := c.isAlpha || c.isDigit || c == '_' || c == '-'

/-- `replace(/[^a-zA-Z0-9_-]+/g, "-")`. -/
def replaceInvalidRuns (prevInvalid : Bool) : List Char → List Char
  | [] => []
  | c :: rest =>
    if isSlugKeepChar c then c :: replaceInvalidRuns false rest
    else if prevInvalid then replaceInvalidRuns true rest
    else '-' :: replaceInvalidRuns true rest

/-- Collapse every run of two or more hyphens to a single hyphen. -/
def collapseHyphenRuns (prevHyphen : Bool) : List Char → List Char
  | [] => []
  | c :: rest =>
    if c == '-' then
      if prevHyphen then collapseHyphenRuns true rest
      else '-' :: collapseHyphenRuns true rest
    else c :: collapseHyphenRuns false rest

/-- `replace(/^-+|-+$/g, "")`. -/
def stripEdgeHyphens (l : List Char) : List Char :=
  ((l.dropWhile (fun c => c == '-')).reverse.dropWhile (fun c => c == '-')).reverse

/-- The `slug` helper of the source.  The NFKD normalization and
combining-mark stripping are the identity on the ASCII data the pipeline
produces and are modelled as such. -/
def slug (s : String) : String :=
  let t := jsTrimL s.data
  let r1 := replaceInvalidRuns false t
  let r2 := collapseHyphenRuns false r1
  let r3 := stripEdgeHyphens r2
  let lowered := r3.map jsLowerChar
  if lowered.isEmpty then "node" else String.mk lowered

/-- `Array.prototype.join(sep)`. -/
def joinWith (sep : String) : List String → String
  | [] => ""
  | [x] => x
  | x :: rest => x ++ sep ++ joinWith sep rest

/-- The `addSlug` closure of `collectSlugVariants`: the `Set` is modelled as a
duplicate-free list in insertion order. -/
def addSlug (slugs : List String) (parts : List String) : List String :=
  if parts.isEmpty then slugs
  else
    let s := slug (joinWith " " (parts.filter (fun p => p ≠ "")))
    if s ≠ "" then (if slugs.contains s then slugs else slugs ++ [s]) else slugs

/-- All contiguous slices, in the source's loop order
(`start` ascending, then `end` ascending). -/
def contiguousSlices (l : List String) : List (List String) :=
  (List.range l.length).flatMap
    (fun start => (List.range (l.length - start)).map
      (fun k => (l.drop start).take (k + 1)))

/-- All pairs `(l[i], l[j])`, `i < j`, in the source's loop order. -/
def pairCombos (l : List String) : List (List String) :=
  if l.length ≥ 2 then
    (List.range l.length).flatMap
      (fun i => (List.range (l.length - i - 1)).map
        (fun d => [l.getD i "", l.getD (i + d + 1) ""]))
  else []

/-- Stable insertion of a string into a list sorted by descending length. -/
def insertDesc (x : String) : List String → List String
  | [] => [x]
  | y :: ys => if y.length < x.length then x :: y :: ys else y :: insertDesc x ys

/-- `Array.prototype.sort((a, b) => b.length - a.length)`.  JS `sort` is
stable, and a stable sort by a total preorder has a unique result, so the
stable insertion sort below computes exactly the JS result. -/
def sortLenDesc (l : List String) : List String :=
  l.foldl (fun acc x => insertDesc x acc) []

/-- `collectSlugVariants`. -/
def collectSlugVariants (segments : List String) : List String :=
  let cleaned := (segments.map jsTrim).filter (fun s => s ≠ "")
  if cleaned.isEmpty then []
  else
    let exploded := cleaned.flatMap splitSegmentIntoTokens
    if exploded.isEmpty then []
    else
      let afterContig := (contiguousSlices exploded).foldl addSlug []
      let afterPairs := (pairCombos exploded).foldl addSlug afterContig
      sortLenDesc afterPairs

/-- `buildSlugCandidates`. -/
def buildSlugCandidates (names : List String) : List String :=
  let normalized := normalizePathNames names
  if normalized.isEmpty then []
  else
    let meaningful :=
      normalized.filter (fun name => !(GENERIC_NODE_NAMES.contains (jsLower name)))
    let segments := if meaningful.isEmpty then normalized else meaningful
    collectSlugVariants segments

/-- `buildVarSlugCandidates`. -/
def buildVarSlugCandidates (varName : String) : List String :=
  let afterLead :=
    match varName.data with
    | '-' :: '-' :: rest => rest
    | l => l
  let r1 := afterLead.map (fun c => if c == '_' then '-' else c)
  let r2 := (collapseSpaceRuns false r1).map (fun c => if isJsSpace c then '-' else c)
  let pieces := (splitRunsBy (fun c => !(c == '-')) r2).map String.mk
  if pieces.isEmpty then [] else collectSlugVariants pieces

/-! ### Color / value formatter -/

/-- A raw color object: `{r, g, b, a}` with possibly-absent fields. -/
structure FColor where
  r : Option ℚ
  g : Option ℚ
  b : Option ℚ
  a : Option ℚ
deriving DecidableEq

/-- `to255`: `Math.round((x ?? 0) * 255)`. -/
def to255 (x : Option ℚ) : ℤ := jsRound (ratMul (x.getD 0) 255)

/-- Decimal digit character. -/
def decDigitChar (n : Nat) : Char := Char.ofNat (48 + n % 10)

/-- Lowercase base-16 rendering of a nonnegative integer (`v.toString(16)`),
with JS's leading minus sign for negatives. -/
def jsHexChars (v : ℤ) : List Char :=
  if v < 0 then '-' :: Nat.toDigits 16 v.natAbs else Nat.toDigits 16 v.toNat

/-- `hex2`: `v.toString(16).padStart(2, "0")`. -/
def hex2 (v : ℤ) : String :=
  let s := jsHexChars v
  String.mk (if s.length < 2 then List.replicate (2 - s.length) '0' ++ s else s)

/-- Strip trailing zero characters. -/
def stripTrailZeros (l : List Char) : List Char :=
  (l.reverse.dropWhile (fun c => c == '0')).reverse

/-- How JS prints the number `m / 1000` (an exact multiple of `1/1000`):
integer part, then a fractional part with trailing zeros removed. -/
def thousandthsString (m : ℤ) : String :=
  let sign := if m < 0 then "-" else ""
  let n := m.natAbs
  let ip := n / 1000
  let fp := n % 1000
  if fp == 0 then sign ++ toString ip
  else
    sign ++ toString ip ++ "." ++
      String.mk (stripTrailZeros [decDigitChar (fp / 100), decDigitChar (fp / 10), decDigitChar fp])

/-- `Number(q.toFixed(3))` rendered back to a string: decimal rounding of the
exact rational to 3 places (half away from rounding toward negative), then
JS number printing.  IEEE-double artifacts of `toFixed` are not modelled;
the pipeline only formats values where the two agree. -/
def jsToFixed3 (q : ℚ) : String := thousandthsString (jsRound (ratMul q 1000))

/-- `rgbaOrHex`. -/
def rgbaOrHex (color : Option FColor) (alphaOverride : Option ℚ) : Option String :=
  match color with
  | none => none
  | some c =>
    let a := clamp01 (some (alphaOverride.getD (c.a.getD 1)))
    let r := to255 c.r
    let g := to255 c.g
    let b := to255 c.b
    some (if a < 1 then
        "rgba(" ++ toString r ++ ", " ++ toString g ++ ", " ++ toString b ++
          ", " ++ jsToFixed3 a ++ ")"
      else "#" ++ hex2 r ++ hex2 g ++ hex2 b)

/-- `px`: `Math.round(n || 0)` suffixed with `px` (callers pass numbers; the
`|| 0` default is applied at the call sites that can pass `undefined`). -/
def px (n : ℚ) : String := toString (jsRound n) ++ "px"

/-- `wrapRem`. -/
def wrapRem (pxVal : String) (isDesktop : Bool) : String :=
  if isDesktop then "#\x7bremD(" ++ pxVal ++ ")\x7d" else "#\x7brem(" ++ pxVal ++ ")\x7d"

/-- `formatUnitless`: `Number(num.toFixed(3))` interpolated into a string.
The two trailing `replace` calls of the source are no-ops on the output of
`Number(...)` printing and are modelled as the identity. -/
def formatUnitless (num : ℚ) : String := jsToFixed3 num

/-! ### Slug-hint regexes -/

def FONT_SIZE_HINT_test (s : String) : Bool :=
  containsAny s ["font", "text", "headline", "title", "display", "body",
    "caption", "paragraph", "button", "size", "desktop---", "mobile---"]

def LINE_HEIGHT_HINT_test (s : String) : Bool :=
  containsAny s ["lineheight", "line-height", "leading", "line"] ||
    hasWordLhAux none s.data

def DESKTOP_HINT_test (s : String) : Bool :=
  containsAny s ["desktop", "desk", "web", "lg", "xl", "xxl", "hd", "desktop---"]

/-- `slugMatches`. -/
def slugMatches (slugs : List String) (test : String → Bool) : Bool :=
  if slugs.isEmpty then false else slugs.any test

/-- `inferDesktopFromSlugs`. -/
def inferDesktopFromSlugs (slugs : List String) : Bool :=
  slugMatches slugs DESKTOP_HINT_test

/-- `formatFontSizeNumber` (the `typeof`/`isFinite` guards hold for every
rational, leaving the `value <= 0` test). -/
def formatFontSizeNumber (value : ℚ) (slugs : List String) : Option String :=
  if value ≤ 0 then none
  else some (wrapRem (px value) (inferDesktopFromSlugs slugs))

/-- `formatLineHeightNumber` (`formatUnitless` never returns a falsy string,
so the `formatted || null` fallback is the value itself). -/
def formatLineHeightNumber (value : ℚ) (slugs : List String) : Option String :=
  if value ≤ 0 then none
  else if value ≤ 5 then some (formatUnitless value)
  else some (wrapRem (px value) (inferDesktopFromSlugs slugs))

/-- Text style metadata of a TEXT node or text style.  The source also
accepts a string `lineHeightPercentFontSize` via `parseFloat`; the pipeline is
modelled for the numeric form the API delivers. -/
structure TextStyle where
  fontSize : Option ℚ
  fontFamily : Option String
  fontWeight : Option ℚ
  italic : Option Bool
  lineHeightPx : Option ℚ
  lineHeightPercentFontSize : Option ℚ
deriving DecidableEq

/-- `formatLineHeight`. -/
def formatLineHeight (style : Option TextStyle) (isDesktop : Bool) : Option String :=
  match style with
  | none => none
  | some st =>
    match st.lineHeightPx with
    | some v =>
      if 0 < v then some (wrapRem (px v) isDesktop)
      else formatLineHeightPercent st
    | none => formatLineHeightPercent st
where
  /-- The percent-of-font-size fallback branch of `formatLineHeight`
  (`percent` is truthy iff nonzero; `formatUnitless` is always truthy). -/
  formatLineHeightPercent (st : TextStyle) : Option String :=
    match st.lineHeightPercentFontSize with
    | some p => if p ≠ 0 then some (formatUnitless (jsDiv p 100)) else none
    | none => none

/-! ### Token maps (JS `Map` as an association list) -/

/-- One per-kind token map: slug to formatted value. -/
def SlugMap : Type := List (String × String)

instance : DecidableEq SlugMap := by unfold SlugMap; infer_instance

/-- `Map.prototype.set`: replace the existing binding in place, else append. -/
def mapSet : SlugMap → String → String → SlugMap
  | [], k, v => [(k, v)]
  | (k0, v0) :: rest, k, v =>
    if k0 = k then (k, v) :: rest else (k0, v0) :: mapSet rest k v

/-- `Map.prototype.get` (with `has` folded in: `none` iff the key is absent). -/
def mapGet : SlugMap → String → Option String
  | [], _ => none
  | (k0, v0) :: rest, k => if k0 = k then some v0 else mapGet rest k

/-- `assignValueBySlug`. -/
def assignValueBySlug (map : SlugMap) (slugs : List String) (value : Option String) :
    SlugMap :=
  match value with
  | none => map
  | some v =>
    if slugs.isEmpty then map
    else slugs.foldl (fun m s => if s = "" then m else mapSet m s v) map

/-- `pickValueBySlug`. -/
def pickValueBySlug (map : SlugMap) (slugCandidates : List String) : Option String :=
  match slugCandidates with
  | [] => none
  | s :: rest =>
    match mapGet map s with
    | some v => some v
    | none => pickValueBySlug map rest

/-- `mergeSlugMaps`: copy every entry of `source` into `target` with
`Map.set`, in iteration order. -/
def mergeSlugMaps (target source : SlugMap) : SlugMap :=
  source.foldl (fun t kv => mapSet t kv.1 kv.2) target

/-! ### SCSS variable classification -/

/-- `^#([0-9a-f]{3}|[0-9a-f]{6})$` (the value is lowercased first). -/
def isHexDigitLower (c : Char) : Bool :=
  (48 ≤ c.toNat && c.toNat ≤ 57) || (97 ≤ c.toNat && c.toNat ≤ 102)

def looksHexTest (v : String) : Bool :=
  match v.data with
  | '#' :: rest => (rest.length == 3 || rest.length == 6) && rest.all isHexDigitLower
  | _ => false

/-- `^rgba?\(`. -/
def looksRgbaTest (v : String) : Bool :=
  isPrefixOfL "rgb(".data v.data || isPrefixOfL "rgba(".data v.data

/-- Body of `^-?\d+(?:\.\d+)?$` after the optional sign. -/
def unitlessBody (l : List Char) : Bool :=
  let ds := l.takeWhile Char.isDigit
  let rest := l.dropWhile Char.isDigit
  !ds.isEmpty &&
    (rest.isEmpty ||
      match rest with
      | '.' :: fr => !fr.isEmpty && fr.all Char.isDigit
      | _ => false)

def looksUnitlessNumberTest (v : String) : Bool :=
  match v.data with
  | '-' :: rest => unitlessBody rest
  | l => unitlessBody l

/-- `line[-_ ]?height` as an unanchored test. -/
def hasLineSepHeight : List Char → Bool
  | [] => false
  | c :: rest =>
    (isPrefixOfL "line".data (c :: rest) &&
      (let after := (c :: rest).drop 4
       isPrefixOfL "height".data after ||
         match after with
         | d :: after2 =>
           (d == '-' || d == '_' || d == ' ') && isPrefixOfL "height".data after2
         | [] => false)) ||
    hasLineSepHeight rest

/-- `/line[-_ ]?height|leading|lineheight|\blh\b/`. -/
def mentionsLineHeightTest (n : String) : Bool :=
  hasLineSepHeight n.data || strContainsSub n "leading" ||
    strContainsSub n "lineheight" || hasWordLhAux none n.data

/-- `classifyVar`: value shape first, then name keywords. -/
def classifyVar (name value : String) : Option String :=
  let n := jsLower name
  let v := jsLower (jsTrim value)
  let looksHex := looksHexTest v
  let looksRgba := looksRgbaTest v
  let looksRemFn := strContainsSub v "#\x7brem(" || strContainsSub v "#\x7bremd(" ||
    strContainsSub v "rem("
  let looksShadowValue := shadowValueTest v
  let looksPxNumber := hasDigitPx v.data
  let looksUnitlessNumber := looksUnitlessNumberTest v
  let mentionsLineHeight := mentionsLineHeightTest n
  let looksNormalLine := v == "normal"
  if looksHex || looksRgba then some "color"
  else if looksShadowValue then some "shadow"
  else if mentionsLineHeight || looksNormalLine then some "lineHeight"
  else if looksUnitlessNumber && mentionsLineHeight then some "lineHeight"
  else if looksRemFn ||
      (containsAny n ["font", "text", "headline", "caption", "body", "button", "size"] &&
        looksPxNumber) then some "fontSize"
  else if looksUnitlessNumber && (strContainsSub n "leading" || strContainsSub n "line") then
    some "lineHeight"
  else if containsAny n ["shadow", "elevation", "drop"] then some "shadow"
  else if containsAny n ["color", "greyscale", "primary", "secondary", "support",
      "special", "accent", "fill", "bg", "background"] then some "color"
  else if mentionsLineHeightTest n then some "lineHeight"
  else if containsAny n ["font", "text", "headline", "caption", "body", "button",
      "size", "desktop---", "mobile---"] then some "fontSize"
  else none

/-! ### Published variables -/

/-- A per-mode variable value: an alias reference `{type: "VARIABLE_ALIAS",
id}`, a color object, a number, or a string. -/
inductive VarValue where
  | aliasV (id : String)
  | colorV (c : FColor)
  | floatV (n : ℚ)
  | strV (s : String)
deriving DecidableEq

/-- JS truthiness of a variable value. -/
def jsTruthyV : VarValue → Bool
  | .floatV n => n ≠ 0
  | .strV s => s ≠ ""
  | _ => true

structure FigVariable where
  id : String
  name : String
  resolvedType : Option String
  variableCollectionId : Option String
  valuesByMode : List (String × VarValue)
deriving DecidableEq

structure VarCollection where
  id : String
  defaultModeId : Option String
deriving DecidableEq

/-- First-match association lookup: JS `Map.get` and object indexing. -/
def lookupFirst {α : Type} : List (String × α) → String → Option α
  | [], _ => none
  | (k0, v) :: rest, k => if k0 = k then some v else lookupFirst rest k

/-- Generic `Map.set`. -/
def alistSet {α : Type} : List (String × α) → String → α → List (String × α)
  | [], k, v => [(k, v)]
  | (k0, v0) :: rest, k, v =>
    if k0 = k then (k, v) :: rest else (k0, v0) :: alistSet rest k v

/-- `chooseVariableModeId`. -/
def chooseVariableModeId (fvar : FigVariable)
    (collectionMap : List (String × VarCollection)) : Option String :=
  let values := fvar.valuesByMode
  if values.isEmpty then none
  else
    let collection :=
      match fvar.variableCollectionId with
      | some cid => lookupFirst collectionMap cid
      | none => none
    let firstKey := values.head?.map Prod.fst
    match collection.bind VarCollection.defaultModeId with
    | some preferred =>
      if preferred ≠ "" then
        match lookupFirst values preferred with
        | some w => if jsTruthyV w then some preferred else firstKey
        | none => firstKey
      else firstKey
    | none => firstKey

/-- `resolveVariableAlias`: follow `VARIABLE_ALIAS` references, giving up
(returning `null`) once `depth` exceeds 50. -/
def resolveVariableAlias (variableMap : List (String × FigVariable))
    (value : Option VarValue) (modeId : String) (depth : Nat) : Option VarValue :=
  match value with
  | none => none
  | some v =>
    if depth > 50 then none
    else
      match v with
      | .aliasV id =>
        if id ≠ "" then
          match lookupFirst variableMap id with
          | none => none
          | some target =>
            resolveVariableAlias variableMap (lookupFirst target.valuesByMode modeId)
              modeId (depth + 1)
        else some v
      | _ => some v
termination_by 51 - depth
decreasing_by omega

/-- The hex-digit class accepted by `parseInt(st, 16)`. -/
def isHexDigitAny (c : Char) : Bool :=
  (48 ≤ c.toNat && c.toNat ≤ 57) || (97 ≤ c.toNat && c.toNat ≤ 102) ||
    (65 ≤ c.toNat && c.toNat ≤ 70)

def hexDigitVal (c : Char) : Nat :=
  if 48 ≤ c.toNat && c.toNat ≤ 57 then c.toNat - 48
  else if 97 ≤ c.toNat then c.toNat - 87
  else c.toNat - 55

def hexVal (l : List Char) : Nat := l.foldl (fun a c => a * 16 + hexDigitVal c) 0

/-- JS `parseInt(s, 16)`: skip whitespace, optional sign, optional `0x`
prefix, then the **maximal leading run** of hex digits; `NaN` (here `none`)
only when that run is empty.  Trailing garbage is ignored. -/
def jsParseIntHex (s : String) : Option ℤ :=
  let l := s.data.dropWhile isJsSpace
  let sgn := match l with | '-' :: _ => true | _ => false
  let l1 := match l with
    | '-' :: r => r
    | '+' :: r => r
    | r => r
  let l2 := match l1 with
    | '0' :: x :: r => if x == 'x' || x == 'X' then r else l1
    | _ => l1
  let ds := l2.takeWhile isHexDigitAny
  if ds.isEmpty then none
  else some (if sgn then -(hexVal ds : ℤ) else (hexVal ds : ℤ))

/-- JS `ToInt32`. -/
def toInt32 (n : ℤ) : ℤ := (n + 2 ^ 31) % 2 ^ 32 - 2 ^ 31

/-- `(num >> k) & 255` of the source: 32-bit arithmetic shift (floor division
by `2^k`) then the low byte. -/
def jsShrByte (num : ℤ) (k : Nat) : ℤ := Int.fdiv (toInt32 num) (2 ^ k) % 256

/-- `normalizeVariableColorValue`. -/
def normalizeVariableColorValue (entry : Option VarValue) : Option FColor :=
  match entry with
  | some (.colorV c) =>
    match c.r, c.g, c.b with
    | some r, some g, some b =>
      some ⟨some (clamp01 (some r)), some (clamp01 (some g)), some (clamp01 (some b)),
        some (match c.a with | some a => clamp01 (some a) | none => 1)⟩
    | _, _, _ => none
  | some (.strV s) =>
    match s.data with
    | '#' :: hexcs =>
      if hexcs.length == 3 || hexcs.length == 6 then
        let full := if hexcs.length == 3 then hexcs.flatMap (fun c => [c, c]) else hexcs
        match jsParseIntHex (String.mk full) with
        | some num =>
          some ⟨some (Rat.divInt (jsShrByte num 16) 255),
            some (Rat.divInt (jsShrByte num 8) 255),
            some (Rat.divInt (jsShrByte num 0) 255), some 1⟩
        | none => none
      else none
    | _ => none
  | _ => none

/-- `coerceNumber` restricted to the values that occur
(`{value: _}` / `{v: _}` wrapper objects do not arise as variable values, so
the object branch of the source yields `null` here). -/
def coerceNumber : Option VarValue → Option ℚ
  | some (.floatV n) => some n
  | some (.strV s) => jsParseFloat s
  | _ => none
where
  /-- JS `parseFloat` on the longest valid prefix: sign, digits, optional
  fraction, optional exponent.  `Infinity` parses to an infinite value that
  `Number.isFinite` then rejects, so it is `none` here as well. -/
  jsParseFloat (s : String) : Option ℚ :=
    let l := s.data.dropWhile isJsSpace
    let sgn := match l with | '-' :: _ => true | _ => false
    let l1 := match l with
      | '-' :: r => r
      | '+' :: r => r
      | r => r
    let d1 := l1.takeWhile Char.isDigit
    let r1 := l1.dropWhile Char.isDigit
    let d2 := match r1 with
      | '.' :: r => r.takeWhile Char.isDigit
      | _ => []
    let r2 := match r1 with
      | '.' :: r => r.dropWhile Char.isDigit
      | r => r
    if d1.isEmpty && d2.isEmpty then none
    else
      let mantissa : ℤ := (hexVal [] + digitsVal d1 * 10 ^ d2.length + digitsVal d2 : ℕ)
      let mant : ℤ := if sgn then -mantissa else mantissa
      let exp : ℤ :=
        match r2 with
        | e :: r3 =>
          if e == 'e' || e == 'E' then
            let esgn := match r3 with | '-' :: _ => true | _ => false
            let r4 := match r3 with
              | '-' :: r => r
              | '+' :: r => r
              | r => r
            let ed := r4.takeWhile Char.isDigit
            if ed.isEmpty then 0
            else if esgn then -(digitsVal ed : ℤ) else (digitsVal ed : ℤ)
          else 0
        | [] => 0
      some (Rat.divInt (mant * 10 ^ exp.toNat) (10 ^ (d2.length + (-exp).toNat)))
  digitsVal (l : List Char) : Nat := l.foldl (fun a c => a * 10 + (c.toNat - 48)) 0

/-- The four per-kind token maps produced by the style/variable resolvers
(`emptyStyleTokens` of the source). -/
structure StyleTokens where
  colorsBySlug : SlugMap
  fontSizeBySlug : SlugMap
  lineHeightBySlug : SlugMap
  shadowsBySlug : SlugMap
deriving DecidableEq

def emptyStyleTokens : StyleTokens := ⟨[], [], [], []⟩

/-- `(name || "").split("/").map(p => p.trim()).filter(Boolean)`: the
run-splitting below differs from `split` only on empty segments, which the
`filter` removes either way. -/
def splitSlashSegments (s : String) : List String :=
  (((splitRunsBy (fun c => !(c == '/')) s.data).map
    (fun l => jsTrim (String.mk l)))).filter (fun x => x ≠ "")

/-- The loop body of `collectVariableTokens` for one variable. -/
def processVariable (variableMap : List (String × FigVariable))
    (collectionMap : List (String × VarCollection))
    (tokens : StyleTokens) (fvar : FigVariable) : StyleTokens :=
  let slugHints := buildSlugCandidates (splitSlashSegments fvar.name)
  if slugHints.isEmpty then tokens
  else
    match chooseVariableModeId fvar collectionMap with
    | none => tokens
    | some modeId =>
      let rawValue := resolveVariableAlias variableMap
        (lookupFirst fvar.valuesByMode modeId) modeId 0
      if fvar.resolvedType == some "COLOR" then
        match normalizeVariableColorValue rawValue with
        | none => tokens
        | some colorValue =>
          match rgbaOrHex (some colorValue) colorValue.a with
          | some formatted =>
            { tokens with colorsBySlug :=
                assignValueBySlug tokens.colorsBySlug slugHints (some formatted) }
          | none => tokens
      else if fvar.resolvedType == some "FLOAT" then
        match coerceNumber rawValue with
        | none => tokens
        | some numeric =>
          let wantsLineHeight := slugMatches slugHints LINE_HEIGHT_HINT_test
          let wantsFontSize := slugMatches slugHints FONT_SIZE_HINT_test
          if wantsFontSize then
            match formatFontSizeNumber numeric slugHints with
            | some f =>
              { tokens with fontSizeBySlug :=
                  assignValueBySlug tokens.fontSizeBySlug slugHints (some f) }
            | none => tokens
          else if wantsLineHeight then
            match formatLineHeightNumber numeric slugHints with
            | some f =>
              { tokens with lineHeightBySlug :=
                  assignValueBySlug tokens.lineHeightBySlug slugHints (some f) }
            | none => tokens
          else tokens
      else if fvar.resolvedType == some "STRING" then
        match rawValue with
        | some (.strV s0) =>
          let str := jsTrim s0
          if str ≠ "" && shadowValueTest str then
            { tokens with shadowsBySlug :=
                assignValueBySlug tokens.shadowsBySlug slugHints (some str) }
          else tokens
        | _ => tokens
      else tokens

/-- The pure core of `collectVariableTokens` (after the fetch): build the
collection and variable maps, then fold the per-variable processing. -/
def collectVariableTokensPure (vars : List FigVariable)
    (collections : List VarCollection) : StyleTokens :=
  let collectionMap := collections.foldl
    (fun m col => if col.id ≠ "" then alistSet m col.id col else m) []
  let variableMap := vars.foldl
    (fun m v => if v.id ≠ "" then alistSet m v.id v else m) []
  vars.foldl (fun toks v => processVariable variableMap collectionMap toks v)
    emptyStyleTokens

/-! ### Frame traversal -/

/-- A gradient stop (only its color is read). -/
structure GradientStop where
  color : Option FColor
deriving DecidableEq

/-- A paint (fill or stroke). -/
structure Paint where
  visible : Option Bool
  opacity : Option ℚ
  ptype : Option String
  color : Option FColor
  gradientStops : Option (List GradientStop)
deriving DecidableEq

/-- An effect; `offsetX`/`offsetY` model `e.offset?.x` / `e.offset?.y`
(absent offset object and absent coordinate both collapse to `none`). -/
structure FEffect where
  visible : Option Bool
  etype : Option String
  offsetX : Option ℚ
  offsetY : Option ℚ
  radius : Option ℚ
  color : Option FColor
deriving DecidableEq

/-- A document node.  `children` distinguishes an absent list from an empty
one, mirroring the `Array.isArray` guard. -/
inductive Node where
  | mk (name : Option String) (visible : Option Bool) (opacity : Option ℚ)
      (ntype : Option String) (fills : Option (List Paint))
      (strokes : Option (List Paint)) (style : Option TextStyle)
      (effects : Option (List FEffect)) (children : Option (List Node))
      (id : String)

def Node.name : Node → Option String
  | .mk n _ _ _ _ _ _ _ _ _ => n

def Node.opacity : Node → Option ℚ
  | .mk _ _ o _ _ _ _ _ _ _ => o

def ICON_NAME_KEYWORDS : List String :=
  ["icon", "icn", "glyph", "logo", "arrow", "chevron", "close", "burger",
   "menu", "play", "pause", "cart", "search", "user", "heart", "plus",
   "minus", "star"]

/-- `ICON_NAME_RE.test(name)` (a case-insensitive alternation). -/
def iconNameTest (s : String) : Bool := containsAny (jsLower s) ICON_NAME_KEYWORDS

def ICON_TYPES : List String :=
  ["VECTOR", "BOOLEAN_OPERATION", "STAR", "LINE", "ELLIPSE", "POLYGON",
   "RECTANGLE", "REGULAR_POLYGON", "INSTANCE", "COMPONENT", "COMPONENT_SET",
   "FRAME", "GROUP"]

/-- `guessWeightFromName`: substring tests on the lowercased name, in source
order. -/
def guessWeightFromName (name : String) : Nat :=
  let n := jsLower name
  if strContainsSub n "thin" then 100
  else if strContainsSub n "extralight" || strContainsSub n "ultralight" then 200
  else if strContainsSub n "light" then 300
  else if strContainsSub n "regular" || strContainsSub n "book" ||
      strContainsSub n "normal" then 400
  else if strContainsSub n "medium" then 500
  else if strContainsSub n "semibold" || strContainsSub n "demibold" then 600
  else if strContainsSub n "bold" then 700
  else if strContainsSub n "extrabold" || strContainsSub n "ultrabold" then 800
  else if strContainsSub n "black" || strContainsSub n "heavy" then 900
  else 400

/-- `effectiveNodeOpacity`, applied to the node's `opacity` field. -/
def effectiveNodeOpacity (opacity : Option ℚ) : ℚ := clamp01 (some (opacity.getD 1))

/-- `composeAlpha`. -/
def composeAlpha (effectiveOpacity paintOpacity colorAlpha : ℚ) : ℚ :=
  clamp01 (some (ratMul (ratMul effectiveOpacity paintOpacity) colorAlpha))

/-- JS number printing for the font key (`${weight}`); Figma weights are
integers, for which this matches JS. -/
def jsNumToString (q : ℚ) : String :=
  if q.den == 1 then toString q.num else toString q.num ++ "/" ++ toString q.den

/-- The accumulator of `createTraversalAccumulator`; `fonts` is a `Set` of
strings (duplicate-free, insertion order). -/
structure TraversalAcc where
  colorsBySlug : SlugMap
  fontSizeBySlug : SlugMap
  lineHeightBySlug : SlugMap
  shadowsBySlug : SlugMap
  fonts : List String
  iconNodes : List (String × List String)

def createTraversalAccumulator : TraversalAcc := ⟨[], [], [], [], [], []⟩

/-- `Set.prototype.add`. -/
def insertUnique (l : List String) (s : String) : List String :=
  if l.contains s then l else l ++ [s]

/-- The body of the per-paint processing in the fills/strokes loops of
`traverseFrame`: a `SOLID` branch, then a `GRADIENT_*` branch (the null
checks of `rgbaOrHex` results are folded into `assignValueBySlug`, which
skips `none` values exactly like the source's `if (val)` guard). -/
def applyPaint (cum : ℚ) (slugHints : List String) (colors : SlugMap)
    (f : Paint) : SlugMap :=
  if f.visible == some false then colors
  else
    let paintOpacity := clamp01 (some (f.opacity.getD 1))
    let colors1 :=
      match f.ptype, f.color with
      | some t, some c =>
        if t = "SOLID" then
          assignValueBySlug colors slugHints
            (rgbaOrHex (some c) (some (composeAlpha cum paintOpacity (c.a.getD 1))))
        else colors
      | _, _ => colors
    match f.ptype, f.gradientStops with
    | some t, some stops =>
      if isPrefixOfL "GRADIENT".data t.data then
        stops.foldl (fun cs stop =>
          match stop.color with
          | some c =>
            assignValueBySlug cs slugHints
              (rgbaOrHex (some c) (some (composeAlpha cum paintOpacity (c.a.getD 1))))
          | none => cs) colors1
      else colors1
    | _, _ => colors1

/-- The per-effect processing of the shadows loop of `traverseFrame`
(`[offX, offY, blur, col].join(" ")` renders a `null` color as `""`). -/
def applyEffect (cum : ℚ) (parts : List String) (e : FEffect) : List String :=
  if e.visible == some false then parts
  else
    match e.etype with
    | some t =>
      if t = "DROP_SHADOW" || t = "INNER_SHADOW" then
        let offX := px (e.offsetX.getD 0)
        let offY := px (e.offsetY.getD 0)
        let blur := px (e.radius.getD 0)
        let effectAlpha := composeAlpha cum 1 ((e.color.bind FColor.a).getD 1)
        let col := rgbaOrHex e.color (some effectAlpha)
        parts ++ [joinWith " " [offX, offY, blur, col.getD ""]]
      else parts
    | none => parts

mutual

/-- `traverseFrame`: pre-order walk accumulating colors, typography, shadows,
fonts and icon candidates. -/
def traverseFrame (node : Node) (acc : TraversalAcc) (ancestryNames : List String)
    (inheritedOpacity : ℚ) : TraversalAcc :=
  match node with
  | .mk name visible opacity ntype fills strokes style effects children nid =>
    if visible == some false then acc
    else
      let currentNames :=
        match name with
        | some s => if s ≠ "" then ancestryNames ++ [s] else ancestryNames
        | none => ancestryNames
      let pathHint := jsLower (joinWith "/" currentNames)
      let nodeOpacity := effectiveNodeOpacity opacity
      let cumulativeOpacity := clamp01 (some (ratMul inheritedOpacity nodeOpacity))
      let slugHints := buildSlugCandidates currentNames
      let acc1 :=
        match fills with
        | some fl =>
          { acc with colorsBySlug :=
              fl.foldl (applyPaint cumulativeOpacity slugHints) acc.colorsBySlug }
        | none => acc
      let acc2 :=
        match strokes with
        | some sl =>
          { acc1 with colorsBySlug :=
              sl.foldl (applyPaint cumulativeOpacity slugHints) acc1.colorsBySlug }
        | none => acc1
      let acc3 :=
        if ntype == some "TEXT" then
          match style with
          | some st =>
            let hasFontSize := match st.fontSize with
              | some fs => decide (0 < fs)
              | none => false
            let isDesktop := strContainsSub pathHint "desktop" ||
              (hasFontSize && match st.fontSize with
                | some fs => decide (20 ≤ fs)
                | none => false)
            let accA :=
              if hasFontSize then
                { acc2 with fontSizeBySlug :=
                    (assignValueBySlug acc2.fontSizeBySlug slugHints
                      (some (wrapRem (px (st.fontSize.getD 0)) isDesktop))) }
              else acc2
            let accB :=
              match formatLineHeight (some st) isDesktop with
              | some lh =>
                { accA with lineHeightBySlug :=
                    assignValueBySlug accA.lineHeightBySlug slugHints (some lh) }
              | none => accA
            match st.fontFamily with
            | some fam =>
              if fam ≠ "" then
                let weight : ℚ :=
                  match st.fontWeight with
                  | some w => if w == 0 then (guessWeightFromName (name.getD "") : ℚ) else w
                  | none => (guessWeightFromName (name.getD "") : ℚ)
                let it := if st.italic.getD false then "i" else "n"
                { accB with fonts :=
                    insertUnique accB.fonts (fam ++ "::" ++ jsNumToString weight ++ "::" ++ it) }
              else accB
            | none => accB
          | none => acc2
        else acc2
      let acc4 :=
        match effects with
        | some es =>
          let parts := es.foldl (applyEffect cumulativeOpacity) []
          if parts.isEmpty then acc3
          else
            { acc3 with shadowsBySlug :=
                assignValueBySlug acc3.shadowsBySlug slugHints (some (joinWith ", " parts)) }
        | none => acc3
      let isIconCandidate :=
        (match name with | some s => s ≠ "" && iconNameTest s | none => false) ||
        (match ntype with | some t => ICON_TYPES.contains t | none => false)
      let acc5 :=
        if isIconCandidate then
          { acc4 with iconNodes := acc4.iconNodes ++ [(nid, currentNames)] }
        else acc4
      match children with
      | some cs => traverseChildren cs acc5 currentNames cumulativeOpacity
      | none => acc5

/-- The `for (const child of node.children)` loop of `traverseFrame`. -/
def traverseChildren (children : List Node) (acc : TraversalAcc)
    (names : List String) (cum : ℚ) : TraversalAcc :=
  match children with
  | [] => acc
  | c :: rest => traverseChildren rest (traverseFrame c acc names cum) names cum

end

/-! ### SCSS parse / update

Both `parseScssVars` and `replaceScss` are driven by the same global regex
`/(\-\-[A-Za-z0-9_\-]+)\s*:\s*([^;]+);/g`: scan left to right, at each
position try to match the statement pattern; on a match consume it whole and
continue after it, otherwise advance one character.  The scanners below
recurse on a fuel argument bounded by the remaining length (every step
consumes at least one character), which keeps them kernel-computable; the
entry points pass the input's length. -/

def isNameChar (c : Char) : Bool := c.isAlpha || c.isDigit || c == '_' || c == '-'

/-- One matched `--name: value;` statement: the two capture groups, the whole
matched text, and the remaining input after it. -/
structure StmtMatch where
  name : List Char
  rawValue : List Char
  whole : List Char
  rest : List Char

/-- The `([^;]+)` capture: the greedy `\s*` before it backtracks just enough
to leave the group at least one character. -/
def valuePart (chunk : List Char) : List Char :=
  chunk.drop (min (chunk.takeWhile isJsSpace).length (chunk.length - 1))

/-- Try to match `(\-\-[A-Za-z0-9_\-]+)\s*:\s*([^;]+);` at the start of the
input. -/
def tryMatchStmt : List Char → Option StmtMatch
  | '-' :: '-' :: cs0 =>
    if (cs0.takeWhile isNameChar).isEmpty then none
    else
      match (cs0.dropWhile isNameChar).dropWhile isJsSpace with
      | ':' :: afterColon =>
        match afterColon.dropWhile (fun c => !(c == ';')) with
        | ';' :: rem =>
          if (afterColon.takeWhile (fun c => !(c == ';'))).isEmpty then none
          else
            some
              { name := '-' :: '-' :: cs0.takeWhile isNameChar
                rawValue := valuePart (afterColon.takeWhile (fun c => !(c == ';')))
                whole := '-' :: '-' :: (cs0.takeWhile isNameChar ++
                  ((cs0.dropWhile isNameChar).takeWhile isJsSpace ++
                    ':' :: (afterColon.takeWhile (fun c => !(c == ';')) ++ [';'])))
                rest := rem }
        | _ => none
      | _ => none
  | _ => none

/-- The scan behind `parseScssVars` (`re.exec` loop). -/
def parseScanF : Nat → List Char → List (String × String)
  | 0, _ => []
  | _ + 1, [] => []
  | fuel + 1, c :: rest =>
    match tryMatchStmt (c :: rest) with
    | some m =>
      (String.mk m.name, jsTrim (String.mk m.rawValue)) :: parseScanF fuel m.rest
    | none => parseScanF fuel rest

/-- `parseScssVars`: every statement's variable name and trimmed value, in
textual order. -/
def parseScssVars (content : String) : List (String × String) :=
  parseScanF content.data.length content.data

/-- The scan behind `replaceScss` (`String.replace` with a global regex and a
replacer callback): untouched text is copied verbatim; a matched statement is
rewritten to `name: newVal;` and counted only when the update differs from
the old value after trimming. -/
def replaceScanF (updates : List (String × String)) : Nat → List Char → List Char × Nat
  | 0, _ => ([], 0)
  | _ + 1, [] => ([], 0)
  | fuel + 1, c :: rest =>
    match tryMatchStmt (c :: rest) with
    | some m =>
      let t := replaceScanF updates fuel m.rest
      match mapGet updates (String.mk m.name) with
      | none => (m.whole ++ t.1, t.2)
      | some newVal =>
        if jsTrim (String.mk m.rawValue) = jsTrim newVal then (m.whole ++ t.1, t.2)
        else (m.name ++ ':' :: ' ' :: (newVal.data ++ ';' :: t.1), t.2 + 1)
    | none =>
      let t := replaceScanF updates fuel rest
      (c :: t.1, t.2)

/-- `replaceScss`. -/
def replaceScss (content : String) (updatesMap : List (String × String)) :
    String × Nat :=
  if updatesMap.isEmpty then (content, 0)
  else
    let r := replaceScanF updatesMap content.data.length content.data
    (String.mk r.1, r.2)

/-! ### The scan's segmentation of a stylesheet

`replaceScss`'s global-regex scan partitions the input into single characters
outside any matched statement and whole matched statements.  The segmentation
below is proved to reconstruct the input exactly (`scanPieces_text`), and
`replaceScss` is proved to rewrite each piece independently
(`replaceScanF_pieces`): raw characters and trim-equal statements verbatim,
only differing statements replaced and counted. -/

/-- One piece of the scan's segmentation: a character outside any matched
statement, or one whole matched statement. -/
inductive ScanPiece where
  | raw (c : Char)
  | stmt (m : StmtMatch)

/-- The original text of a piece. -/
def ScanPiece.text : ScanPiece → List Char
  | .raw c => [c]
  | .stmt m => m.whole

/-- How `replaceScss` renders one piece: raw text verbatim; a statement
verbatim when its planned update is absent or trim-equal to the declared
value, else `name: newVal;`. -/
def renderPiece (updates : List (String × String)) : ScanPiece → List Char
  | .raw c => [c]
  | .stmt m =>
    match mapGet updates (String.mk m.name) with
    | none => m.whole
    | some nv =>
      if jsTrim (String.mk m.rawValue) = jsTrim nv then m.whole
      else m.name ++ ':' :: ' ' :: (nv.data ++ [';'])

/-- Does the planned update change this piece? -/
def pieceChanged (updates : List (String × String)) : ScanPiece → Bool
  | .raw _ => false
  | .stmt m =>
    match mapGet updates (String.mk m.name) with
    | none => false
    | some nv => !(jsTrim (String.mk m.rawValue) == jsTrim nv)

/-- The segmentation computed by the scan (same fuel convention as the
scanners). -/
def scanPieces : Nat → List Char → List ScanPiece
  | 0, _ => []
  | _ + 1, [] => []
  | fuel + 1, c :: rest =>
    match tryMatchStmt (c :: rest) with
    | some m => .stmt m :: scanPieces fuel m.rest
    | none => .raw c :: scanPieces fuel rest

/-! ### Specification-side predicates and concrete instances used by the
theorems below -/

/-- The spec's canonical color shape `^#[0-9a-f]{6}$`. -/
def isHexColor6 (s : String) : Bool :=
  match s.data with
  | '#' :: rest => rest.length == 6 && rest.all isHexDigitLower
  | _ => false

/-- A value that keeps alias resolution chasing: an alias with a nonempty id. -/
def isLiveAlias : VarValue → Bool
  | .aliasV id => id ≠ ""
  | _ => false

/-- Absent, or a live alias (never a concrete value). -/
def optAliasOnly : Option VarValue → Bool
  | none => true
  | some w => isLiveAlias w

/-- Every variable of the map carries, for `modeId`, either no value or a
live alias: such a map can never deliver a concrete value. -/
def allModesAlias (vm : List (String × FigVariable)) (modeId : String) : Bool :=
  vm.all (fun e => optAliasOnly (lookupFirst e.2.valuesByMode modeId))

/-- Every statement parsed from `content` whose variable has a planned update
is a no-op: the planned value equals the declared one after trimming. -/
def updatesAreNoop (content : String) (updates : List (String × String)) : Bool :=
  (parseScssVars content).all (fun p =>
    match mapGet updates p.1 with
    | some nv => p.2 == jsTrim nv
    | none => true)

/-- A visible SOLID fill with the given color and no paint-level opacity. -/
def solidFill (col : FColor) : Paint :=
  { visible := none, opacity := none, ptype := some "SOLID",
    color := some col, gradientStops := none }

/-- A leaf node named `Leaf` with opacity `c` and one SOLID fill. -/
def leafNode (col : FColor) (c : ℚ) : Node :=
  .mk (some "Leaf") none (some c) (some "RECTANGLE") (some [solidFill col]) none
    none none none "2:1"

/-- A parent frame named `Parent` with opacity `p` and the leaf as only child. -/
def parentNode (p : ℚ) (col : FColor) (c : ℚ) : Node :=
  .mk (some "Parent") none (some p) (some "FRAME") none none none none
    (some [leafNode col c]) "1:1"

/-- One half of a cyclic alias pair. -/
def cycVarA : FigVariable :=
  { id := "A", name := "A", resolvedType := some "COLOR",
    variableCollectionId := none, valuesByMode := [("m", .aliasV "B")] }

/-- The other half of a cyclic alias pair. -/
def cycVarB : FigVariable :=
  { id := "B", name := "B", resolvedType := some "COLOR",
    variableCollectionId := none, valuesByMode := [("m", .aliasV "A")] }

/-- A COLOR variable whose alias points at a missing variable, so its
resolved value normalizes to `none`. -/
def brokenColorVar : FigVariable :=
  { id := "V", name := "Broken / Color", resolvedType := some "COLOR",
    variableCollectionId := none, valuesByMode := [("m", .aliasV "missing")] }

/-! ## Theorems

Support lemmas first, then one theorem per claim. -/

theorem mem_insertDesc {a x : String} {l : List String} :
    a ∈ insertDesc x l ↔ a = x ∨ a ∈ l := by
  induction l with
  | nil => simp [insertDesc]
  | cons y ys ih =>
    by_cases h : y.length < x.length
    · simp [insertDesc, h]
    · simp [insertDesc, h, ih]
      tauto

theorem insertDesc_pairwise {x : String} {l : List String}
    (h : l.Pairwise (fun a b => b.length ≤ a.length)) :
    (insertDesc x l).Pairwise (fun a b => b.length ≤ a.length) := by
  induction l with
  | nil => simp [insertDesc]
  | cons y ys ih =>
    rcases List.pairwise_cons.mp h with ⟨hy, hys⟩
    by_cases hlt : y.length < x.length
    · simp only [insertDesc, if_pos hlt]
      refine List.pairwise_cons.mpr ⟨?_, h⟩
      intro b hb
      rcases List.mem_cons.mp hb with hb | hb
      · subst hb; omega
      · have := hy b hb; omega
    · simp only [insertDesc, if_neg hlt]
      refine List.pairwise_cons.mpr ⟨?_, ih hys⟩
      intro b hb
      rcases mem_insertDesc.mp hb with hb | hb
      · subst hb; omega
      · exact hy b hb

theorem sortLenDesc_pairwise (l : List String) :
    (sortLenDesc l).Pairwise (fun a b => b.length ≤ a.length) := by
  unfold sortLenDesc
  suffices h : ∀ acc : List String, acc.Pairwise (fun a b => b.length ≤ a.length) →
      (l.foldl (fun acc x => insertDesc x acc) acc).Pairwise
        (fun a b => b.length ≤ a.length) by
    exact h [] (by simp)
  induction l with
  | nil => intro acc hacc; simpa using hacc
  | cons x xs ih => intro acc hacc; exact ih _ (insertDesc_pairwise hacc)

theorem collectSlugVariants_pairwise (segments : List String) :
    (collectSlugVariants segments).Pairwise (fun a b => b.length ≤ a.length) := by
  unfold collectSlugVariants
  dsimp only
  split
  · simp
  · split
    · simp
    · exact sortLenDesc_pairwise _

theorem buildSlugCandidates_pairwise (names : List String) :
    (buildSlugCandidates names).Pairwise (fun a b => b.length ≤ a.length) := by
  unfold buildSlugCandidates
  dsimp only
  split
  · simp
  · exact collectSlugVariants_pairwise _

/-- C6: slug candidate generation is deterministic — it is a pure function of
its input, and its output is always sorted by descending string length
(JS `sort` with comparator `b.length - a.length`, stability giving a unique
result) — and `buildSlugCandidates(["Desktop", "Headline 1"])` contains both
`"headline-1"` and `"desktop-headline-1"`. -/
theorem buildSlugCandidates_sorted_and_contains :
    (∀ names : List String,
      (buildSlugCandidates names).Pairwise (fun a b => b.length ≤ a.length)) ∧
    "headline-1" ∈ buildSlugCandidates ["Desktop", "Headline 1"] ∧
    "desktop-headline-1" ∈ buildSlugCandidates ["Desktop", "Headline 1"] :=
  ⟨buildSlugCandidates_pairwise, by decide, by decide⟩

/-- C7: the claim's weight table says extrabold/ultrabold map to 800, but the
source tests `/bold/` before `/extrabold|ultrabold/`, so any name containing
"extrabold" or "ultrabold" already returns 700 and the 800 branch is dead
code (evaluations of the embedded `guessWeightFromName` at the failing and
at agreeing inputs). -/
theorem guessWeightFromName_extrabold_is_700 :
    guessWeightFromName "ExtraBold" = 700 ∧ guessWeightFromName "ultrabold" = 700 ∧
    guessWeightFromName "Thin" = 100 ∧ guessWeightFromName "UltraLight" = 200 ∧
    guessWeightFromName "Light" = 300 ∧ guessWeightFromName "Regular" = 400 ∧
    guessWeightFromName "Medium" = 500 ∧ guessWeightFromName "SemiBold" = 600 ∧
    guessWeightFromName "Bold" = 700 ∧ guessWeightFromName "Black" = 900 ∧
    guessWeightFromName "Heavy" = 900 ∧ guessWeightFromName "foo" = 400 := by
  decide

/-- C3: whenever a parsed variable's declared value — trimmed and lowercased —
matches `^#([0-9a-f]{3}|[0-9a-f]{6})$` or starts with `rgb(`/`rgba(`,
`classifyVar` returns `"color"` no matter what the variable is named. -/
theorem classifyVar_value_shape_color (name value : String)
    (h : (looksHexTest (jsLower (jsTrim value)) ||
      looksRgbaTest (jsLower (jsTrim value))) = true) :
    classifyVar name value = some "color" := by
  simp [classifyVar, h]

/-- C3 witness: `--my-random-name: #ff00aa` is classified as a color. -/
theorem classifyVar_value_shape_color_witness :
    classifyVar "--my-random-name" "#ff00aa" = some "color" :=
  classifyVar_value_shape_color _ _ (by decide)

/-- C9: a declared value that trims and lowercases to exactly `"normal"`
classifies as `"lineHeight"` regardless of the variable's name: it fails the
hex, rgba and shadow shape tests and the `looksNormalLine` disjunct fires
before every font-size and name-keyword bucket. -/
theorem classifyVar_normal_lineHeight (name value : String)
    (h : jsLower (jsTrim value) = "normal") :
    classifyVar name value = some "lineHeight" := by
  simp [classifyVar, h,
    (show looksHexTest "normal" = false by decide),
    (show looksRgbaTest "normal" = false by decide),
    (show shadowValueTest "normal" = false by decide)]

/-- C9 witness: `--whatever:  NORMAL ` is classified as line-height. -/
theorem classifyVar_normal_lineHeight_witness :
    classifyVar "--whatever" " NORMAL " = some "lineHeight" :=
  classifyVar_normal_lineHeight _ _ (by decide)

theorem mapGet_mapSet_self (m : SlugMap) (k v : String) :
    mapGet (mapSet m k v) k = some v := by
  induction m with
  | nil => simp [mapSet, mapGet]
  | cons kv rest ih =>
    obtain ⟨k0, v0⟩ := kv
    by_cases h : k0 = k
    · simp [mapSet, mapGet, h]
    · simp [mapSet, mapGet, h, ih]

theorem mapGet_mapSet_ne (m : SlugMap) (k0 v k : String) (h : k0 ≠ k) :
    mapGet (mapSet m k0 v) k = mapGet m k := by
  induction m with
  | nil => simp [mapSet, mapGet, h]
  | cons kv rest ih =>
    obtain ⟨k1, v1⟩ := kv
    by_cases h1 : k1 = k0
    · simp [mapSet, mapGet, h1, h]
    · simp only [mapSet, if_neg h1]
      by_cases h2 : k1 = k
      · simp [mapGet, h2]
      · simp [mapGet, h2, ih]

theorem mapGet_eq_none_of_not_mem (m : SlugMap) (k : String)
    (h : k ∉ m.map Prod.fst) : mapGet m k = none := by
  induction m with
  | nil => rfl
  | cons kv rest ih =>
    obtain ⟨k0, v0⟩ := kv
    simp only [List.map_cons, List.mem_cons] at h
    push_neg at h
    have hne : k0 ≠ k := fun hk => h.1 hk.symm
    simp [mapGet, hne, ih h.2]

/-- C1 counterexample: merging the frame-inline map `{a: "#111111"}` with the
published-style map `{a: "#222222", b: "#333333"}` yields `a = "#222222"`,
not the claimed `"#111111"` — `mergeSlugMaps` copies source entries over the
target unconditionally. -/
theorem mergeSlugMaps_overwrites_frame_value :
    mapGet (mergeSlugMaps [("a", "#111111")] [("a", "#222222"), ("b", "#333333")]) "a" =
      some "#222222" ∧
    mapGet (mergeSlugMaps [("a", "#111111")] [("a", "#222222"), ("b", "#333333")]) "a" ≠
      some "#111111" := by
  decide

/-- C1 (amended): `mergeSlugMaps target source` gives precedence to the
**source** (the later-merged, lower-precedence map): a slug present in
`source` takes the source's value, overwriting any frame-inline value, and
slugs present only in `target` keep their value.  Merging frame-inline
`{a: "#111111"}` with published-style `{a: "#222222", b: "#333333"}` yields
`{a: "#222222", b: "#333333"}`. -/
theorem mergeSlugMaps_source_wins (target source : SlugMap) (k : String)
    (hnodup : (source.map Prod.fst).Nodup) :
    mapGet (mergeSlugMaps target source) k =
      match mapGet source k with
      | some v => some v
      | none => mapGet target k := by
  induction source generalizing target with
  | nil => simp [mergeSlugMaps, mapGet]
  | cons kv rest ih =>
    obtain ⟨k0, v0⟩ := kv
    simp only [List.map_cons, List.nodup_cons] at hnodup
    have step : mergeSlugMaps target ((k0, v0) :: rest) =
        mergeSlugMaps (mapSet target k0 v0) rest := rfl
    rw [step, ih _ hnodup.2]
    by_cases h : k0 = k
    · subst h
      have hr : mapGet rest k0 = none := mapGet_eq_none_of_not_mem _ _ hnodup.1
      simp [mapGet, hr, mapGet_mapSet_self]
    · simp only [mapGet, if_neg h]
      cases hr : mapGet rest k with
      | some v => simp
      | none => simp [mapGet_mapSet_ne _ _ _ _ h]

/-- C1 witness: the amended precedence at the spec's own test vector. -/
theorem mergeSlugMaps_source_wins_witness :
    mapGet (mergeSlugMaps [("a", "#111111")] [("a", "#222222"), ("b", "#333333")]) "b" =
      some "#333333" := by
  rw [mergeSlugMaps_source_wins [("a", "#111111")]
    [("a", "#222222"), ("b", "#333333")] "b" (by decide)]
  decide

theorem lookupFirst_mem {α : Type} (l : List (String × α)) (k : String) (v : α)
    (h : lookupFirst l k = some v) : (k, v) ∈ l := by
  induction l with
  | nil => simp [lookupFirst] at h
  | cons kv rest ih =>
    obtain ⟨k0, v0⟩ := kv
    by_cases h0 : k0 = k
    · subst h0
      simp only [lookupFirst, if_pos rfl] at h
      cases h
      exact List.mem_cons_self _ _
    · simp only [lookupFirst, if_neg h0] at h
      exact List.mem_cons_of_mem _ (ih h)

/-- C2: alias resolution terminates for every input (it is a total function of
the embedding); any call at depth above 50 returns no value, and over a
variable map whose mode values never reach a concrete value — e.g. a cyclic
alias pair — resolution from any alias returns no value instead of looping
or crashing. -/
theorem resolveVariableAlias_bounded :
    (∀ (vm : List (String × FigVariable)) (value : Option VarValue)
      (modeId : String) (depth : Nat), depth > 50 →
      resolveVariableAlias vm value modeId depth = none) ∧
    (∀ (vm : List (String × FigVariable)) (modeId : String)
      (value : Option VarValue) (depth : Nat),
      allModesAlias vm modeId = true → optAliasOnly value = true →
      resolveVariableAlias vm value modeId depth = none) := by
  constructor
  · intro vm value modeId depth hd
    cases value with
    | none => simp [resolveVariableAlias]
    | some v => rw [resolveVariableAlias.eq_def]; simp [hd]
  · intro vm modeId value depth hall hv
    suffices h : ∀ (k : Nat) (value : Option VarValue) (depth : Nat),
        51 - depth ≤ k → optAliasOnly value = true →
        resolveVariableAlias vm value modeId depth = none by
      exact h (51 - depth) value depth le_rfl hv
    intro k
    induction k with
    | zero =>
      intro value depth hle hv
      have hd : depth > 50 := by omega
      cases value with
      | none => simp [resolveVariableAlias]
      | some v => rw [resolveVariableAlias.eq_def]; simp [hd]
    | succ n ih =>
      intro value depth hle hv
      cases value with
      | none => simp [resolveVariableAlias]
      | some v =>
        by_cases hd : depth > 50
        · rw [resolveVariableAlias.eq_def]; simp [hd]
        · cases v with
          | aliasV id =>
            have hid : id ≠ "" := by
              simpa [optAliasOnly, isLiveAlias] using hv
            rw [resolveVariableAlias.eq_def]
            simp only [hd, if_false, hid, ne_eq, not_false_eq_true, if_true]
            cases hlu : lookupFirst vm id with
            | none => simp
            | some target =>
              simp only []
              apply ih _ (depth + 1) (by omega)
              have hmem := lookupFirst_mem vm id target hlu
              have := List.all_eq_true.mp hall _ hmem
              simpa [allModesAlias] using this
          | colorV c => simp [optAliasOnly, isLiveAlias] at hv
          | floatV q => simp [optAliasOnly, isLiveAlias] at hv
          | strV s => simp [optAliasOnly, isLiveAlias] at hv

/-- C2 witness: a synthetic cyclic alias pair resolves to no value, and any
call beyond the depth bound returns no value. -/
theorem resolveVariableAlias_bounded_witness :
    resolveVariableAlias [("A", cycVarA), ("B", cycVarB)] (some (.aliasV "A")) "m" 0 =
      none ∧
    resolveVariableAlias [] (some (.floatV 1)) "m" 51 = none :=
  ⟨resolveVariableAlias_bounded.2 [("A", cycVarA), ("B", cycVarB)] "m"
      (some (.aliasV "A")) 0 (by decide) (by decide),
    resolveVariableAlias_bounded.1 [] (some (.floatV 1)) "m" 51 (by decide)⟩

theorem strData_append (a b : String) : (a ++ b).data = a.data ++ b.data := rfl

theorem clamp01_nonneg (n : Option ℚ) : 0 ≤ clamp01 n := by
  unfold clamp01; rw [jsMax_eq]; exact le_max_left _ _

theorem clamp01_le_one (n : Option ℚ) : clamp01 n ≤ 1 := by
  unfold clamp01; rw [jsMax_eq, jsMin_eq]
  exact max_le (by norm_num) (min_le_left _ _)

theorem to255_bounds (x : Option ℚ) (h0 : 0 ≤ x.getD 0) (h1 : x.getD 0 ≤ 1) :
    0 ≤ to255 x ∧ to255 x ≤ 255 := by
  unfold to255
  rw [jsRound_eq_floor, ratMul_eq]
  have hmul0 : 0 ≤ x.getD 0 * 255 := mul_nonneg h0 (by norm_num)
  have hmul1 : x.getD 0 * 255 ≤ 255 := by nlinarith
  constructor
  · exact Int.le_floor.mpr (by push_cast; linarith)
  · have : ⌊x.getD 0 * 255 + 1 / 2⌋ < 256 := Int.floor_lt.mpr (by push_cast; linarith)
    omega

set_option maxRecDepth 4000 in
theorem hex2_nat_ok : ∀ n : Nat, n < 256 →
    ((hex2 (n : ℤ)).data.length = 2 ∧ (hex2 (n : ℤ)).data.all isHexDigitLower = true) := by
  decide

theorem hex2_int_ok (v : ℤ) (h0 : 0 ≤ v) (h1 : v ≤ 255) :
    (hex2 v).data.length = 2 ∧ (hex2 v).data.all isHexDigitLower = true := by
  have hv : ((v.toNat : ℤ)) = v := Int.toNat_of_nonneg h0
  have hlt : v.toNat < 256 := by omega
  have h := hex2_nat_ok v.toNat hlt
  rwa [hv] at h

/-- C4: for channels in `[0,1]`, `rgbaOrHex` is canonical in the effective
alpha (the clamp of the override, else the color's alpha, else 1): alpha 1
produces a string matching `^#[0-9a-f]{6}$`, and alpha < 1 produces
`rgba(r, g, b, a)` with the channels rounded to 0-255 integers and the alpha
rounded to three decimal places. -/
theorem rgbaOrHex_canonical (c : FColor) (ov : Option ℚ)
    (hr0 : 0 ≤ c.r.getD 0) (hr1 : c.r.getD 0 ≤ 1)
    (hg0 : 0 ≤ c.g.getD 0) (hg1 : c.g.getD 0 ≤ 1)
    (hb0 : 0 ≤ c.b.getD 0) (hb1 : c.b.getD 0 ≤ 1) :
    (clamp01 (some (ov.getD (c.a.getD 1))) = 1 →
      ∃ s, rgbaOrHex (some c) ov = some s ∧ isHexColor6 s = true) ∧
    (clamp01 (some (ov.getD (c.a.getD 1))) < 1 →
      rgbaOrHex (some c) ov = some ("rgba(" ++ toString (to255 c.r) ++ ", " ++
        toString (to255 c.g) ++ ", " ++ toString (to255 c.b) ++ ", " ++
        jsToFixed3 (clamp01 (some (ov.getD (c.a.getD 1)))) ++ ")")) := by
  obtain ⟨r, g, b, a⟩ := c
  dsimp only at hr0 hr1 hg0 hg1 hb0 hb1 ⊢
  constructor
  · intro ha
    refine ⟨"#" ++ hex2 (to255 r) ++ hex2 (to255 g) ++ hex2 (to255 b), ?_, ?_⟩
    · unfold rgbaOrHex
      dsimp only
      rw [if_neg (by rw [ha]; exact lt_irrefl 1)]
    · obtain ⟨hrl, hra⟩ := hex2_int_ok (to255 r) (to255_bounds r hr0 hr1).1
        (to255_bounds r hr0 hr1).2
      obtain ⟨hgl, hga⟩ := hex2_int_ok (to255 g) (to255_bounds g hg0 hg1).1
        (to255_bounds g hg0 hg1).2
      obtain ⟨hbl, hba⟩ := hex2_int_ok (to255 b) (to255_bounds b hb0 hb1).1
        (to255_bounds b hb0 hb1).2
      unfold isHexColor6
      simp [strData_append, List.all_append, hrl, hgl, hbl, hra, hga, hba]
  · intro ha
    unfold rgbaOrHex
    dsimp only
    rw [if_pos ha]

/-- C4 witness: opaque red formats to a 6-digit lowercase hex string, and red
at effective alpha `1/2` formats to `rgba(255, 0, 0, 0.5)`. -/
theorem rgbaOrHex_canonical_witness :
    (∃ s, rgbaOrHex (some ⟨some 1, some 0, some 0, none⟩) none = some s ∧
      isHexColor6 s = true) ∧
    rgbaOrHex (some ⟨some 1, some 0, some 0, some 1⟩) (some (mkRat 1 2)) =
      some "rgba(255, 0, 0, 0.5)" := by
  constructor
  · exact (rgbaOrHex_canonical ⟨some 1, some 0, some 0, none⟩ none (by decide)
      (by decide) (by decide) (by decide) (by decide) (by decide)).1 (by decide)
  · rw [(rgbaOrHex_canonical ⟨some 1, some 0, some 0, some 1⟩ (some (mkRat 1 2))
      (by decide) (by decide) (by decide) (by decide) (by decide) (by decide)).2
      (by decide)]
    decide

set_option maxRecDepth 8000 in
set_option maxHeartbeats 1600000 in
/-- C5: in `traverseFrame` the cumulative opacity handed to a child is the
clamped product of the inherited opacity and the node's own (clamped)
opacity, and a visible SOLID fill is recorded under the node's slugs with
alpha composed as cumulative opacity × paint opacity × color alpha — shown
for a node with one fill nested under one parent, for all opacities and fill
colors; at parent opacity `1/2` and fill `{r:1, g:0, b:0, a:1}` the recorded
color is exactly `rgba(255, 0, 0, 0.5)`. -/
theorem traverseFrame_opacity_composition :
    (∀ (p c : ℚ) (col : FColor),
      mapGet (traverseFrame (parentNode p col c) createTraversalAccumulator []
          1).colorsBySlug "leaf" =
        rgbaOrHex (some col)
          (some (composeAlpha
            (clamp01 (some (ratMul
              (clamp01 (some (ratMul 1 (effectiveNodeOpacity (some p)))))
              (effectiveNodeOpacity (some c)))))
            (clamp01 (some 1)) (col.a.getD 1)))) ∧
    mapGet (traverseFrame (parentNode (mkRat 1 2) ⟨some 1, some 0, some 0, some 1⟩ 1)
        createTraversalAccumulator [] 1).colorsBySlug "leaf" =
      some "rgba(255, 0, 0, 0.5)" :=
  ⟨fun p c col => rfl, by decide⟩

/-- C10 counterexample: `"#12x456"` is six characters after `#` but not six
hex digits, yet `normalizeVariableColorValue` accepts it — `parseInt`
parses the `"12"` prefix — contradicting the claim that only exactly-3-or-6
hex-digit strings are accepted. -/
theorem normalizeVariableColorValue_accepts_nonhex :
    normalizeVariableColorValue (some (.strV "#12x456")) =
      some ⟨some 0, some 0, some (Rat.divInt 18 255), some 1⟩ ∧
    normalizeVariableColorValue (some (.strV "#12x456")) ≠ none := by
  decide

/-- C10 (amended): a string value is accepted only when it starts with `#`
and has exactly 3 or 6 characters after it whose `parseInt` base-16 prefix
parse succeeds; other lengths (e.g. 8-digit `#rrggbbaa`) and unparsable
bodies yield `none`; a 3-character body behaves exactly as its
digit-doubled 6-character expansion; every accepted string gets alpha 1;
and a COLOR variable whose resolved value normalizes to `none` contributes
nothing — `processVariable` returns the token maps unchanged, so the run
continues without error. -/
theorem normalizeVariableColorValue_amended :
    (∀ (s : String) (hexcs : List Char), s.data = '#' :: hexcs →
      hexcs.length ≠ 3 → hexcs.length ≠ 6 →
      normalizeVariableColorValue (some (.strV s)) = none) ∧
    (∀ s : String, s.data.head? ≠ some '#' →
      normalizeVariableColorValue (some (.strV s)) = none) ∧
    (∀ c0 c1 c2 : Char,
      normalizeVariableColorValue (some (.strV (String.mk ['#', c0, c1, c2]))) =
        normalizeVariableColorValue
          (some (.strV (String.mk ['#', c0, c0, c1, c1, c2, c2])))) ∧
    (∀ (s : String) (hexcs : List Char), s.data = '#' :: hexcs →
      hexcs.length = 6 → jsParseIntHex (String.mk hexcs) = none →
      normalizeVariableColorValue (some (.strV s)) = none) ∧
    (∀ (s : String) (col : FColor),
      normalizeVariableColorValue (some (.strV s)) = some col → col.a = some 1) ∧
    (∀ (vm : List (String × FigVariable)) (cm : List (String × VarCollection))
      (tokens : StyleTokens) (v : FigVariable) (modeId : String),
      v.resolvedType = some "COLOR" →
      chooseVariableModeId v cm = some modeId →
      normalizeVariableColorValue (resolveVariableAlias vm
        (lookupFirst v.valuesByMode modeId) modeId 0) = none →
      processVariable vm cm tokens v = tokens) := by
  refine ⟨?_, ?_, ?_, ?_, ?_, ?_⟩
  · intro s hexcs hdata h3 h6
    simp [normalizeVariableColorValue, hdata, h3, h6]
  · intro s h
    cases hd : s.data with
    | nil => simp [normalizeVariableColorValue, hd]
    | cons c rest =>
      have hc : c ≠ '#' := by
        intro hc
        exact h (by simp [hd, hc])
      simp only [normalizeVariableColorValue, hd]
      split
      · next hexcs heq =>
        exact absurd (List.cons.injEq .. ▸ heq).1 hc
      · rfl
  · intro c0 c1 c2
    rfl
  · intro s hexcs hdata h6 hparse
    simp [normalizeVariableColorValue, hdata, h6, hparse]
  · intro s col h
    simp only [normalizeVariableColorValue] at h
    split at h
    · next heq =>
      split at h
      · split at h
        · cases h; rfl
        · exact absurd h (by simp)
      · exact absurd h (by simp)
    · exact absurd h (by simp)
  · intro vm cm tokens v modeId hty hmode hnorm
    simp only [processVariable]
    split
    · rfl
    · rw [hmode]
      simp [hty, hnorm]

/-- C10 witness: an 8-digit `#rrggbbaa` string and a non-hex 6-character body
are rejected, and a COLOR variable with an unresolvable alias leaves the
token maps untouched. -/
theorem normalizeVariableColorValue_amended_witness :
    normalizeVariableColorValue (some (.strV "#aabbccdd")) = none ∧
    normalizeVariableColorValue (some (.strV "#zzzzzz")) = none ∧
    processVariable [] [] emptyStyleTokens brokenColorVar = emptyStyleTokens := by
  refine ⟨?_, ?_, ?_⟩
  · exact normalizeVariableColorValue_amended.1 "#aabbccdd" "aabbccdd".data rfl
      (by decide) (by decide)
  · exact normalizeVariableColorValue_amended.2.2.2.1 "#zzzzzz" "zzzzzz".data rfl
      (by decide) (by decide)
  · exact normalizeVariableColorValue_amended.2.2.2.2.2 [] [] emptyStyleTokens
      brokenColorVar "m" rfl (by decide)
      (by simp [resolveVariableAlias, brokenColorVar, lookupFirst,
        normalizeVariableColorValue])

theorem tryMatchStmt_decomp (cs : List Char) (m : StmtMatch)
    (h : tryMatchStmt cs = some m) : cs = m.whole ++ m.rest ∧ m.whole ≠ [] := by
  unfold tryMatchStmt at h
  split at h
  · next cs0 =>
    split at h
    · exact absurd h (by simp)
    · next hid =>
      split at h
      · next afterColon heq1 =>
        split at h
        · next rem heq2 =>
          split at h
          · exact absurd h (by simp)
          · next hchunk =>
            cases h
            have e2 : afterColon.takeWhile (fun c => !(c == ';')) ++ ';' :: rem =
                afterColon := by
              conv_rhs => rw [← List.takeWhile_append_dropWhile
                (p := fun c => !(c == ';')) (l := afterColon)]
              rw [heq2]
            have e1 : (cs0.dropWhile isNameChar).takeWhile isJsSpace ++
                ':' :: afterColon = cs0.dropWhile isNameChar := by
              conv_rhs => rw [← List.takeWhile_append_dropWhile
                (p := isJsSpace) (l := cs0.dropWhile isNameChar)]
              rw [heq1]
            have e0 : cs0.takeWhile isNameChar ++ cs0.dropWhile isNameChar = cs0 :=
              List.takeWhile_append_dropWhile ..
            constructor
            · simp only [List.cons_append, List.append_assoc, List.singleton_append,
                List.nil_append]
              rw [e2, e1, e0]
            · simp
        · exact absurd h (by simp)
      · exact absurd h (by simp)
  · exact absurd h (by simp)

theorem parseScanF_succ_match (n : Nat) (c : Char) (rest : List Char)
    (m : StmtMatch) (hm : tryMatchStmt (c :: rest) = some m) :
    parseScanF (n + 1) (c :: rest) =
      (String.mk m.name, jsTrim (String.mk m.rawValue)) :: parseScanF n m.rest := by
  simp [parseScanF, hm]

theorem replaceScanF_noop (updates : List (String × String)) :
    ∀ (fuel : Nat) (cs : List Char), cs.length ≤ fuel →
    (parseScanF fuel cs).all (fun p =>
      match mapGet updates p.1 with
      | some nv => p.2 == jsTrim nv
      | none => true) = true →
    replaceScanF updates fuel cs = (cs, 0) := by
  intro fuel
  induction fuel with
  | zero =>
    intro cs hle _
    have hnil : cs = [] := List.eq_nil_of_length_eq_zero (Nat.le_zero.mp hle)
    subst hnil
    rfl
  | succ n ih =>
    intro cs hle hall
    cases cs with
    | nil => rfl
    | cons c rest =>
      cases hm : tryMatchStmt (c :: rest) with
      | some m =>
        obtain ⟨heq, hne⟩ := tryMatchStmt_decomp _ _ hm
        rw [parseScanF_succ_match n c rest m hm] at hall
        simp only [List.all_cons, Bool.and_eq_true] at hall
        obtain ⟨hhead, htail⟩ := hall
        have hlen := congrArg List.length heq
        simp only [List.length_append, List.length_cons] at hlen
        have hwpos : 0 < m.whole.length := List.length_pos.mpr hne
        have hrest_len : m.rest.length ≤ n := by
          simp only [List.length_cons] at hle
          omega
        have hrec := ih m.rest hrest_len htail
        cases hg : mapGet updates (String.mk m.name) with
        | none =>
          simp only [replaceScanF, hm, hg, hrec]
          rw [← heq]
        | some nv =>
          have hveq : jsTrim (String.mk m.rawValue) = jsTrim nv := by
            simpa [hg] using hhead
          simp [replaceScanF, hm, hg, hrec, hveq, ← heq]
      | none =>
        have hp : parseScanF (n + 1) (c :: rest) = parseScanF n rest := by
          simp [parseScanF, hm]
        rw [hp] at hall
        have hrec := ih rest (by simp only [List.length_cons] at hle; omega) hall
        simp [replaceScanF, hm, hrec]

theorem scanPieces_text : ∀ (fuel : Nat) (cs : List Char), cs.length ≤ fuel →
    (scanPieces fuel cs).flatMap ScanPiece.text = cs := by
  intro fuel
  induction fuel with
  | zero =>
    intro cs hle
    have hnil : cs = [] := List.eq_nil_of_length_eq_zero (Nat.le_zero.mp hle)
    subst hnil
    rfl
  | succ n ih =>
    intro cs hle
    cases cs with
    | nil => rfl
    | cons c rest =>
      cases hm : tryMatchStmt (c :: rest) with
      | some m =>
        obtain ⟨heq, hne⟩ := tryMatchStmt_decomp _ _ hm
        have hlen := congrArg List.length heq
        simp only [List.length_append, List.length_cons] at hlen
        have hwpos : 0 < m.whole.length := List.length_pos.mpr hne
        have hr : m.rest.length ≤ n := by
          simp only [List.length_cons] at hle
          omega
        simp only [scanPieces, hm, List.flatMap_cons, ScanPiece.text, ih m.rest hr]
        exact heq.symm
      | none =>
        have hr : rest.length ≤ n := by
          simp only [List.length_cons] at hle
          omega
        simp [scanPieces, hm, ScanPiece.text, ih rest hr]

theorem replaceScanF_pieces (updates : List (String × String)) :
    ∀ (fuel : Nat) (cs : List Char),
    (replaceScanF updates fuel cs).1 =
      (scanPieces fuel cs).flatMap (renderPiece updates) ∧
    (replaceScanF updates fuel cs).2 =
      ((scanPieces fuel cs).filter (pieceChanged updates)).length := by
  intro fuel
  induction fuel with
  | zero => intro cs; exact ⟨rfl, rfl⟩
  | succ n ih =>
    intro cs
    cases cs with
    | nil => exact ⟨rfl, rfl⟩
    | cons c rest =>
      cases hm : tryMatchStmt (c :: rest) with
      | some m =>
        obtain ⟨ih1, ih2⟩ := ih m.rest
        cases hg : mapGet updates (String.mk m.name) with
        | none =>
          constructor
          · simp [replaceScanF, hm, hg, scanPieces, renderPiece, ih1]
          · simp [replaceScanF, hm, hg, scanPieces, pieceChanged, ih2]
        | some nv =>
          by_cases hv : jsTrim (String.mk m.rawValue) = jsTrim nv
          · constructor
            · simp [replaceScanF, hm, hg, hv, scanPieces, renderPiece, ih1]
            · simp [replaceScanF, hm, hg, hv, scanPieces, pieceChanged, ih2]
          · constructor
            · simp [replaceScanF, hm, hg, hv, scanPieces, renderPiece, ih1,
                List.append_assoc, List.cons_append, List.singleton_append]
            · simp [replaceScanF, hm, hg, hv, scanPieces, pieceChanged, ih2,
                Nat.add_comm]
      | none =>
        obtain ⟨ih1, ih2⟩ := ih rest
        constructor
        · simp [replaceScanF, hm, scanPieces, renderPiece, ih1]
        · simp [replaceScanF, hm, scanPieces, pieceChanged, ih2]

theorem renderPiece_nil (p : ScanPiece) : renderPiece [] p = p.text := by
  cases p <;> simp [renderPiece, ScanPiece.text, mapGet]

theorem pieceChanged_nil (p : ScanPiece) : pieceChanged [] p = false := by
  cases p <;> simp [pieceChanged, mapGet]

/-- C8: write-back is change-minimal, per statement, in every run.  The scan
partitions the stylesheet into raw characters and whole matched statements
whose texts concatenate back to the input exactly; `replaceScss` reproduces
every raw character verbatim in place and every statement whose planned
update is absent or trim-equal to its declared value verbatim in place —
even while other statements change — rewriting only statements whose update
differs after trimming; the reported count is exactly the number of those
differing statements (so no-op statements are never counted); and when every
planned update is such a no-op the count is 0 and the output is
byte-identical to the input. -/
theorem replaceScss_change_minimal :
    (∀ content : String,
      (scanPieces content.data.length content.data).flatMap ScanPiece.text =
        content.data) ∧
    (∀ (content : String) (updates : List (String × String)),
      (replaceScss content updates).1.data =
        (scanPieces content.data.length content.data).flatMap
          (renderPiece updates) ∧
      (replaceScss content updates).2 =
        ((scanPieces content.data.length content.data).filter
          (pieceChanged updates)).length) ∧
    (∀ (content : String) (updates : List (String × String)),
      updatesAreNoop content updates = true →
      replaceScss content updates = (content, 0)) := by
  refine ⟨?_, ?_, ?_⟩
  · intro content
    exact scanPieces_text content.data.length content.data le_rfl
  · intro content updates
    unfold replaceScss
    split
    · next hemp =>
      have hupd : updates = [] := by
        cases updates with
        | nil => rfl
        | cons kv r => simp at hemp
      subst hupd
      have hre : renderPiece [] = ScanPiece.text := funext renderPiece_nil
      have hch : pieceChanged [] = fun _ => false := funext pieceChanged_nil
      constructor
      · show content.data =
          (scanPieces content.data.length content.data).flatMap (renderPiece [])
        rw [hre, scanPieces_text content.data.length content.data le_rfl]
      · show 0 = ((scanPieces content.data.length content.data).filter
          (pieceChanged [])).length
        rw [hch]
        simp
    · exact ⟨(replaceScanF_pieces updates content.data.length content.data).1,
        (replaceScanF_pieces updates content.data.length content.data).2⟩
  · intro content updates h
    unfold replaceScss
    split
    · rfl
    · have hs := replaceScanF_noop updates content.data.length content.data le_rfl
        (by simpa [updatesAreNoop, parseScssVars] using h)
      show (String.mk (replaceScanF updates content.data.length content.data).1,
        (replaceScanF updates content.data.length content.data).2) = (content, 0)
      rw [hs]

/-- C8 witness: in a mixed run the no-op statement `--a` is left verbatim and
uncounted while `--b` changes (count 1), and an all-no-op run returns the
input byte-identical with count 0. -/
theorem replaceScss_change_minimal_witness :
    replaceScss "--a: #fff;\n--b: 1px;" [("--a", " #fff "), ("--b", "2px")] =
      ("--a: #fff;\n--b: 2px;", 1) ∧
    replaceScss "--a: #fff;\nbody" [("--a", " #fff ")] = ("--a: #fff;\nbody", 0) :=
  ⟨by decide, replaceScss_change_minimal.2.2 _ _ (by decide)⟩

end FigmaSpec
